import Mathlib

/-!
Verification of the structural type-extraction engine of `src/extractProps.ts`
(and its discriminated-union post-processor used by `src/templates/PropsEditor.tsx`).

The TypeScript syntax tree is shallowly embedded: each inductive constructor
below corresponds to one of the `ts.is...` node kinds the source inspects.
Every node carries the exact source substring the TypeScript API would return
from `getText` as an explicit `syntaxText` field, since the engine treats it
as opaque text.  Functions that in the source recurse through declarations
found by name lookup (which a cyclic program could make non-terminating, as
the design notes concede) take an explicit fuel parameter; every recursive
call consumes one unit of fuel, and exhausted fuel yields the same fallback
value the corresponding code path uses for an unrecognized input.
-/

namespace ExtractProps

-- Syntax-tree nodes for type expressions, one constructor per node kind
-- distinguished by `buildPropType` and its helpers.
mutual

inductive TypeNode where
  /-- literal type node; the text serves as node text and literal text -/
  | literal (text : String)
  | tupleType (syntaxText : String) (elements : List TypeNode)
  | unionType (syntaxText : String) (types : List TypeNode)
  | arrayType (syntaxText : String) (elementType : TypeNode)
  | functionType (syntaxText : String) (params : List ParamDecl)
  | paren (syntaxText : String) (inner : TypeNode)
  | typeLiteral (syntaxText : String) (members : List Member)
  | typeReference (syntaxText : String) (typeName : String)
  | otherType (syntaxText : String)

/-- one declared parameter of a function type: name text, presence of the
question-mark token, and the optional type annotation -/
inductive ParamDecl where
  | mk (name : String) (questionToken : Bool) (ty : Option TypeNode)

/-- one member of an interface body or type literal; only property
signatures carry data the extractor reads (name, optionality marker,
type annotation, and the raw text of each leading comment range) -/
inductive Member where
  | propertySignature (name : Option String) (questionToken : Bool)
      (ty : Option TypeNode) (comments : List String)
  | methodSignature
  | indexSignature
  | callSignature
  | accessor

end

def ParamDecl.name : ParamDecl → String
  | .mk n _ _ => n

def ParamDecl.questionToken : ParamDecl → Bool
  | .mk _ q _ => q

def ParamDecl.ty : ParamDecl → Option TypeNode
  | .mk _ _ t => t

/-- the exact source text of a type expression node (`typeNode.getText`) -/
def TypeNode.getText : TypeNode → String
  | .literal text => text
  | .tupleType s _ => s
  | .unionType s _ => s
  | .arrayType s _ => s
  | .functionType s _ => s
  | .paren s _ => s
  | .typeLiteral s _ => s
  | .typeReference s _ => s
  | .otherType s => s

-- The result `PropType` tagged union of `extractProps.ts`, with `PropDefinition`
-- as its mutually dependent field record.
mutual

inductive PropType where
  | primitive (syntaxText : String)
  | object (syntaxText : String) (properties : List PropDefinition)
  | func (syntaxText : String) (parameters : List PropDefinition)
  | union (syntaxText : String) (types : List PropType)
  | constant (syntaxText : String) (value : String)
  | array (syntaxText : String) (elementType : PropType)
  | tuple (syntaxText : String) (types : List PropType)

inductive PropDefinition where
  | mk (name : String) (type : PropType) (optional : Bool) (description : Option String)

end

def PropDefinition.name : PropDefinition → String
  | .mk n _ _ _ => n

def PropDefinition.type : PropDefinition → PropType
  | .mk _ t _ _ => t

def PropDefinition.optional : PropDefinition → Bool
  | .mk _ _ o _ => o

def PropDefinition.description : PropDefinition → Option String
  | .mk _ _ _ d => d

/-- the tag string of a shape, matching the `kind` discriminator of the source -/
def PropType.kindTag : PropType → String
  | .primitive _ => "primitive"
  | .object _ _ => "object"
  | .func _ _ => "function"
  | .union _ _ => "union"
  | .constant _ _ => "constant"
  | .array _ _ => "array"
  | .tuple _ _ => "tuple"

/-- interface and type-alias declarations, the two kinds `findTypeDeclaration`
matches; an interface carries the names of its extends-clause references -/
inductive TypeDecl where
  | interfaceDecl (name : String) (heritage : List String) (members : List Member)
  | typeAliasDecl (name : String) (ty : Option TypeNode)

def TypeDecl.name : TypeDecl → String
  | .interfaceDecl n _ _ => n
  | .typeAliasDecl n _ => n

/-- names of the named property-signature members declared directly on a
declaration (used to tell concrete declarations apart in examples) -/
def TypeDecl.localMemberNames : TypeDecl → List String
  | .interfaceDecl _ _ members =>
      members.filterMap fun m =>
        match m with
        | .propertySignature (some n) _ _ _ => some n
        | _ => none
  | .typeAliasDecl _ _ => []

/-- expressions the default-export locator inspects -/
inductive ExprNode where
  | arrowFunction (params : List ParamDecl)
  | functionExpression (params : List ParamDecl)
  | identifier (name : String)
  | otherExpr

/-- one variable declaration: the binding name when it is a plain identifier,
and the optional initializer -/
structure VarDeclData where
  name : Option String
  initializer : Option ExprNode

/-- top-level statements in the walk order of `ts.forEachChild` -/
inductive Statement where
  | typeDeclStmt (d : TypeDecl)
  | exportAssignment (isExportEquals : Bool) (expr : ExprNode)
  | functionDecl (name : Option String) (hasExportMod : Bool) (hasDefaultMod : Bool)
      (params : List ParamDecl)
  | variableStatement (decls : List VarDeclData)
  | otherStmt

/-- a parsed module: its statements in source order -/
structure SourceFile where
  statements : List Statement

/-- outcome of asking the type checker for the symbol at a reference and
taking the symbol's first declaration: either an interface/alias declaration
together with its owning source file, or a declaration of another kind -/
inductive SymbolResolution where
  | typeDeclRes (d : TypeDecl) (file : SourceFile)
  | otherRes

/-- the whole-program symbol table (`ts.TypeChecker`) as the injected read-only
capability the core consumes: `getTypeAtLocation` + `getSymbol` +
`symbol.declarations`, keyed here by the reference's name text -/
structure Checker where
  resolveRef : String → Option SymbolResolution

-- isFunctionType: a function-type node, a parenthesized wrapper around one,
-- or a union type with at least one member satisfying the same test.
mutual

def isFunctionTypeNodeB : TypeNode → Bool
  | .functionType _ _ => true
  | .paren _ inner => isFunctionTypeNodeB inner
  | .unionType _ types => anyFunctionType types
  | _ => false

def anyFunctionType : List TypeNode → Bool
  | [] => false
  | t :: rest => isFunctionTypeNodeB t || anyFunctionType rest

end

/-- `ts.isTypeLiteralNode` -/
def isTypeLiteralB : TypeNode → Bool
  | .typeLiteral _ _ => true
  | _ => false

/-- the body of the union arm of `extractFunctionParameters`: the first union
member that is a function type or a parenthesized function type -/
def firstFunctionMember : List TypeNode → Option (List ParamDecl)
  | [] => none
  | .functionType _ ps :: _ => some ps
  | .paren _ (.functionType _ ps) :: _ => some ps
  | _ :: rest => firstFunctionMember rest

-- The string methods the source applies to comment text, modeled with the
-- semantics of the JavaScript methods over the character sequence of the
-- string (structural definitions, so that concrete inputs evaluate).

/-- is the first list a prefix of the second -/
def charListIsPrefixOf : List Char → List Char → Bool
  | [], _ => true
  | _ :: _, [] => false
  | c :: cs, d :: ds => c == d && charListIsPrefixOf cs ds

/-- JavaScript `s.startsWith(pre)` -/
def jsStartsWith (s pre : String) : Bool :=
  charListIsPrefixOf pre.data s.data

/-- JavaScript `s.endsWith(suf)` -/
def jsEndsWith (s suf : String) : Bool :=
  charListIsPrefixOf suf.data.reverse s.data.reverse

/-- remove the first `n` characters -/
def jsDrop (s : String) (n : Nat) : String :=
  ⟨s.data.drop n⟩

/-- remove the last `n` characters -/
def jsDropRight (s : String) (n : Nat) : String :=
  ⟨(s.data.reverse.drop n).reverse⟩

/-- JavaScript `s.trim()`: remove leading and trailing whitespace -/
def jsTrim (s : String) : String :=
  ⟨((s.data.dropWhile Char.isWhitespace).reverse.dropWhile Char.isWhitespace).reverse⟩

/-- JavaScript `s.length` -/
def jsLength (s : String) : Nat :=
  s.data.length

/-- split a character list at every occurrence of the separator -/
def splitCharList (sep : Char) : List Char → List (List Char)
  | [] => [[]]
  | c :: rest =>
    let r := splitCharList sep rest
    if c == sep then [] :: r
    else
      match r with
      | h :: t => (c :: h) :: t
      | [] => [[c]]

/-- JavaScript `s.split(sep)` for a one-character separator -/
def jsSplitOnChar (sep : Char) (s : String) : List String :=
  (splitCharList sep s.data).map (fun l => ⟨l⟩)

/-- JavaScript `parts.join(sep)` for a one-character separator -/
def jsJoinWithChar (sep : Char) : List String → String
  | [] => ""
  | [s] => s
  | s :: rest => ⟨s.data ++ sep :: (jsJoinWithChar sep rest).data⟩

/-- remove the opening documentation delimiter when present
(the anchored regex replace of the source) -/
def stripLeadingDocOpen (s : String) : String :=
  if jsStartsWith s "/**" then jsDrop s 3 else s

/-- remove the closing comment delimiter when present -/
def stripTrailingClose (s : String) : String :=
  if jsEndsWith s "*/" then jsDropRight s 2 else s

/-- remove one leading asterisk and at most one following space from a line -/
def stripLineStar (s : String) : String :=
  if jsStartsWith s "* " then jsDrop s 2
  else if jsStartsWith s "*" then jsDrop s 1
  else s

/-- normalization applied to a selected documentation comment: strip the
delimiters, split into lines, strip each trimmed line's leading asterisk,
drop empty lines, join with single spaces and trim -/
def normalizeJSDoc (commentText : String) : String :=
  jsTrim
    (jsJoinWithChar ' '
      ((((jsSplitOnChar '\n'
            (stripTrailingClose (stripLeadingDocOpen commentText))).map
          (fun line => stripLineStar (jsTrim line))).filter
        (fun line => jsLength line > 0))))

/-- `extractJSDocComment`: loop backwards over the leading comment ranges for
the last comment whose text starts with the documentation opener, and
normalize it; later comments take precedence -/
def extractJSDocComment : List String → Option String
  | [] => none
  | c :: rest =>
    match extractJSDocComment rest with
    | some r => some r
    | none => if jsStartsWith c "/**" then some (normalizeJSDoc c) else none

/-- `findTypeDeclaration`: walk every node, overwrite the result on each
interface/alias declaration whose name matches, return the final value -/
def findTypeDeclaration (sf : SourceFile) (typeName : String) : Option TypeDecl :=
  sf.statements.foldl
    (fun result st =>
      match st with
      | .typeDeclStmt d => if d.name == typeName then some d else result
      | _ => result)
    none

/-- resolution of one heritage-clause reference inside
`extractPropertiesFromDeclaration`: with a type checker, ask it for the symbol
and accept an interface/alias first declaration together with its own source
file; without one, fall back to the same-file walk -/
def resolveHeritageRef (chk : Option Checker) (sf : SourceFile) (refName : String) :
    Option (TypeDecl × SourceFile) :=
  match chk with
  | some checker =>
    match checker.resolveRef refName with
    | some (.typeDeclRes d f) => some (d, f)
    | _ => none
  | none =>
    match findTypeDeclaration sf refName with
    | some d => some (d, sf)
    | none => none

-- The mutually recursive core: shape resolution and property extraction.
-- Each function consumes one unit of fuel per call; fuel zero returns the
-- fallback the corresponding code path uses for unrecognized input.
mutual

/-- `buildPropType`: classify a type expression node into a `PropType`,
checking node kinds in the exact order of the source's if-chain:
literal, tuple, union, array, function test, type literal, type reference,
and the primitive fallback. -/
def buildPropType : Nat → SourceFile → TypeNode → PropType
  | 0, _, t => .primitive t.getText
  | fuel + 1, sf, t =>
    let syn := t.getText
    match t with
    | .literal text => .constant syn text
    | .tupleType _ elements => .tuple syn (elements.map (buildPropType fuel sf))
    | .unionType _ types => .union syn (types.map (buildPropType fuel sf))
    | .arrayType _ elementType => .array syn (buildPropType fuel sf elementType)
    | t' =>
      if isFunctionTypeNodeB t' then
        .func syn (extractFunctionParameters fuel sf t')
      else
        match t' with
        | .typeLiteral _ _ => .object syn (extractPropertiesFromType fuel sf t')
        | .typeReference _ typeName =>
          (match findTypeDeclaration sf typeName with
           | some typeDecl =>
             let properties := extractPropertiesFromDeclaration fuel none sf typeDecl
             if properties.length > 0 then .object syn properties else .primitive syn
           | none => .primitive syn)
        | _ => .primitive syn

/-- `extractFunctionParameters`: locate the function-type node (directly, under
one pair of parentheses, or as the first function member of a union) and build
one field per declared parameter; parameters without an annotation default to
the `any` primitive. -/
def extractFunctionParameters : Nat → SourceFile → TypeNode → List PropDefinition
  | 0, _, _ => []
  | fuel + 1, sf, t =>
    let functionNode : Option (List ParamDecl) :=
      match t with
      | .functionType _ ps => some ps
      | .paren _ (.functionType _ ps) => some ps
      | .unionType _ types => firstFunctionMember types
      | _ => none
    match functionNode with
    | none => []
    | some ps =>
      ps.map fun p =>
        .mk p.name
          (match p.ty with
           | some pt => buildPropType fuel sf pt
           | none => .primitive "any")
          p.questionToken
          none

/-- `extractPropertiesFromType`: a type literal yields one field per named
property signature; a type reference is resolved by the same-file walk and
its declaration extracted; anything else yields no fields. -/
def extractPropertiesFromType : Nat → SourceFile → TypeNode → List PropDefinition
  | 0, _, _ => []
  | fuel + 1, sf, t =>
    match t with
    | .typeLiteral _ members =>
      members.filterMap fun m =>
        match m with
        | .propertySignature (some n) q ty cs =>
          some (extractPropertyFromSignature fuel sf n q ty cs)
        | _ => none
    | .typeReference _ typeName =>
      (match findTypeDeclaration sf typeName with
       | some typeDecl => extractPropertiesFromDeclaration fuel none sf typeDecl
       | none => [])
    | _ => []

/-- `extractPropertyFromSignature`: build one field from a named property
signature; the shape comes from `buildPropType` (defaulting to the `any`
primitive without an annotation), the description from `extractJSDocComment`,
attached only when truthy (so an empty normalized text is dropped too). -/
def extractPropertyFromSignature :
    Nat → SourceFile → String → Bool → Option TypeNode → List String → PropDefinition
  | 0, _, n, q, _, _ => .mk n (.primitive "") q none
  | fuel + 1, sf, n, q, ty, comments =>
    let propType : PropType :=
      match ty with
      | some t => buildPropType fuel sf t
      | none => .primitive "any"
    .mk n propType q
      (match extractJSDocComment comments with
       | some d => if d = "" then none else some d
       | none => none)

/-- `extractPropertiesFromDeclaration`: for an interface, first the recursively
extracted fields of each heritage reference in extension order, then the
directly declared named property signatures; for a type alias, fields only
when its target is a type literal. -/
def extractPropertiesFromDeclaration :
    Nat → Option Checker → SourceFile → TypeDecl → List PropDefinition
  | 0, _, _, _ => []
  | fuel + 1, chk, sf, d =>
    match d with
    | .interfaceDecl _ heritage members =>
      (heritage.map fun refName =>
          match resolveHeritageRef chk sf refName with
          | some (baseDecl, baseSrcFile) =>
            extractPropertiesFromDeclaration fuel chk baseSrcFile baseDecl
          | none => []).flatten
      ++ members.filterMap fun m =>
           match m with
           | .propertySignature (some n) q ty cs =>
             some (extractPropertyFromSignature fuel sf n q ty cs)
           | _ => none
    | .typeAliasDecl _ ty =>
      match ty with
      | some (.typeLiteral _ members) =>
        members.filterMap fun m =>
          match m with
          | .propertySignature (some n) q ty2 cs =>
            some (extractPropertyFromSignature fuel sf n q ty2 cs)
          | _ => none
      | _ => []

end

/-- the node the walk of `findDefaultExportFunction` ends on: an export
assignment or an export-default function declaration (later hits overwrite
earlier ones, mirroring the shared visitor variable) -/
inductive DefaultExportNode where
  | exportAssign (expr : ExprNode)
  | funcDecl (params : List ParamDecl)

/-- first walk of `findDefaultExportFunction`: remember the last export
assignment that is not an export-equals, or the last function declaration
carrying both the export and default modifiers -/
def findDefaultExportTarget (sf : SourceFile) : Option DefaultExportNode :=
  sf.statements.foldl
    (fun acc st =>
      match st with
      | .exportAssignment isEq e => if isEq then acc else some (.exportAssign e)
      | .functionDecl _ hasExp hasDef ps =>
        if hasExp && hasDef then some (.funcDecl ps) else acc
      | _ => acc)
    none

/-- `findFunctionDeclaration`: walk for a function declaration with the given
name, or a variable declaration binding that name to a function or arrow
literal; later matches overwrite earlier ones.  A function is represented by
its parameter list, the only data the callers read. -/
def findFunctionDeclaration (sf : SourceFile) (nm : String) : Option (List ParamDecl) :=
  sf.statements.foldl
    (fun acc st =>
      match st with
      | .functionDecl (some n) _ _ ps => if n == nm then some ps else acc
      | .variableStatement decls =>
        decls.foldl
          (fun acc2 vd =>
            match vd.name, vd.initializer with
            | some vn, some init =>
              if vn == nm then
                match init with
                | .arrowFunction ps => some ps
                | .functionExpression ps => some ps
                | _ => acc2
              else acc2
            | _, _ => acc2)
          acc
      | _ => acc)
    none

/-- `findDefaultExportFunction`: take the located default export; a function
declaration is used directly, an assigned function or arrow literal is used
directly, a bare identifier triggers the second walk, anything else fails -/
def findDefaultExportFunction (sf : SourceFile) : Option (List ParamDecl) :=
  match findDefaultExportTarget sf with
  | none => none
  | some (.funcDecl ps) => some ps
  | some (.exportAssign e) =>
    match e with
    | .arrowFunction ps => some ps
    | .functionExpression ps => some ps
    | .identifier nm => findFunctionDeclaration sf nm
    | .otherExpr => none

/-- `extractPropsFromSource` (single-file entry point), on the already-parsed
module: no eligible default-export function, an empty parameter list, or a
first parameter without a type annotation all yield the empty field list -/
def extractPropsFromSource (fuel : Nat) (sf : SourceFile) : List PropDefinition :=
  match findDefaultExportFunction sf with
  | none => []
  | some params =>
    match params with
    | [] => []
    | firstParam :: _ =>
      match firstParam.ty with
      | none => []
      | some t => extractPropertiesFromType fuel sf t

/-- `extractPropertiesFromTypeNode` (whole-program mode): a type literal is
extracted directly; for a type reference the same-file walk is tried first and
the type checker consulted only when it finds nothing, switching to the
declaration's own source file -/
def extractPropertiesFromTypeNode (fuel : Nat) (chk : Checker) (sf : SourceFile)
    (t : TypeNode) : List PropDefinition :=
  match t with
  | .typeLiteral _ _ => extractPropertiesFromType fuel sf t
  | .typeReference _ typeName =>
    (match findTypeDeclaration sf typeName with
     | some typeDecl => extractPropertiesFromDeclaration fuel (some chk) sf typeDecl
     | none =>
       match chk.resolveRef typeName with
       | some (.typeDeclRes typeDecl declFile) =>
         extractPropertiesFromDeclaration fuel (some chk) declFile typeDecl
       | _ => [])
  | _ => []

/-- `extractPropsFromSourceFile` (whole-program entry point): same locator as
the single-file mode, then `extractPropertiesFromTypeNode` on the first
parameter's annotation -/
def extractPropsFromSourceFile (fuel : Nat) (chk : Checker) (sf : SourceFile) :
    List PropDefinition :=
  match findDefaultExportFunction sf with
  | none => []
  | some params =>
    match params with
    | [] => []
    | firstParam :: _ =>
      match firstParam.ty with
      | none => []
      | some t => extractPropertiesFromTypeNode fuel chk sf t

/-- one case of a discriminated union: the literal value of the discriminator
field in this member, and the member's fields (the discriminator included,
for display purposes) -/
structure DiscriminatedUnionCase where
  discriminatorValue : String
  properties : List PropDefinition

/-- the derived description of a detected discriminated union -/
structure DiscriminatedUnionInfo where
  discriminator : String
  cases : List DiscriminatedUnionCase

/-- `ts`-side shape test used by the detector: is this member an object shape -/
def isObjectShapeB : PropType → Bool
  | .object _ _ => true
  | _ => false

/-- the field list of an object shape (empty for any other shape) -/
def objectProperties : PropType → List PropDefinition
  | .object _ properties => properties
  | _ => []

/-- the literal value of the field named `nm` in an object-shape member, when
that field exists and its shape is a constant -/
def memberConstantValue (nm : String) (m : PropType) : Option String :=
  match m with
  | .object _ properties =>
    (match properties.find? (fun p => p.name == nm) with
     | some p =>
       match p.type with
       | .constant _ v => some v
       | _ => none
     | none => none)
  | _ => none

/-- no two equal entries -/
def nodupValues : List String → Bool
  | [] => true
  | v :: rest => (!rest.contains v) && nodupValues rest

/-- `nm` qualifies as the discriminator: every member carries a constant-shaped
field named `nm`, and the constant values are pairwise distinct -/
def isDiscriminatorForB (nm : String) (members : List PropType) : Bool :=
  members.all (fun m => (memberConstantValue nm m).isSome) &&
    nodupValues (members.filterMap (memberConstantValue nm))

/-- scan the first member's field names in declaration order for one that
qualifies as the discriminator of all members -/
def findDiscriminator (members : List PropType) : Option String :=
  match members with
  | [] => none
  | first :: _ =>
    ((objectProperties first).map PropDefinition.name).find?
      (fun nm => isDiscriminatorForB nm members)

/-- Modelled from the spec: `getDiscriminatedUnionInfo` is imported from
`extractProps` by `src/templates/PropsEditor.tsx` but its defining code is not
among the sources; section 4.6 of the specification describes it.  It applies
only to a union whose every member is an object shape carrying a common field
name with a constant shape and distinct constant values across members; that
field is the discriminator, and each member becomes one case in declaration
order, keyed by its discriminator literal value and carrying all its fields. -/
def getDiscriminatedUnionInfo (t : PropType) : Option DiscriminatedUnionInfo :=
  match t with
  | .union _ members =>
    if members.all isObjectShapeB then
      match findDiscriminator members with
      | some nm =>
        some
          { discriminator := nm
            cases := members.map fun m =>
              { discriminatorValue := (memberConstantValue nm m).getD ""
                properties := objectProperties m } }
      | none => none
    else none
  | _ => none

/-- the per-member step shared verbatim by the three member-extraction loops:
a named property signature becomes a field, every other member kind none -/
def extractNamedPropertyMember (fuel : Nat) (sf : SourceFile) (m : Member) :
    Option PropDefinition :=
  match m with
  | .propertySignature (some n) q ty cs =>
    some (extractPropertyFromSignature fuel sf n q ty cs)
  | _ => none

/-- Spec-side formulation of the same-file lookup result: the matching
interface/alias declaration that the walk encounters last (later statements
take precedence over earlier ones). -/
def lastMatchingTypeDecl (nm : String) : List Statement → Option TypeDecl
  | [] => none
  | st :: rest =>
    match lastMatchingTypeDecl nm rest with
    | some d => some d
    | none =>
      match st with
      | .typeDeclStmt d => if d.name == nm then some d else none
      | _ => none

/-- Spec-side formulation of the selection rule of section 4.5: scanning the
attached comments from the last one backwards, the first whose text begins
with the documentation opener. -/
def lastDocOpenerComment (comments : List String) : Option String :=
  comments.reverse.find? (fun c => jsStartsWith c "/**")

/-- the spec's example members: an object with a constant `kind` field valued
circle plus a numeric radius, and one with `kind` valued square plus a numeric
side -/
def exShapeMembers : List PropType :=
  [.object "Circle"
    [.mk "kind" (.constant "circle" "circle") false none,
     .mk "radius" (.primitive "number") false none],
   .object "Square"
    [.mk "kind" (.constant "square" "square") false none,
     .mk "side" (.primitive "number") false none]]

end ExtractProps

namespace ExtractProps

/-- the foldl of `findTypeDeclaration` keeps the declaration matched last,
falling back to its accumulator when nothing matches -/
theorem findTypeDeclaration_foldl_eq (nm : String) :
    ∀ (stmts : List Statement) (acc : Option TypeDecl),
      stmts.foldl
        (fun result st =>
          match st with
          | .typeDeclStmt d => if d.name == nm then some d else result
          | _ => result)
        acc
      = (lastMatchingTypeDecl nm stmts).or acc := by
  intro stmts
  induction stmts with
  | nil => intro acc; rfl
  | cons st rest ih =>
    intro acc
    rw [List.foldl_cons, ih]
    cases h : lastMatchingTypeDecl nm rest with
    | some d => simp [lastMatchingTypeDecl, h, Option.or]
    | none =>
      cases st with
      | typeDeclStmt d =>
        by_cases hd : (d.name == nm) = true
        · simp [lastMatchingTypeDecl, h, hd, Option.or]
        · simp only [Bool.not_eq_true] at hd
          simp [lastMatchingTypeDecl, h, hd, Option.or]
      | exportAssignment isEq e => simp [lastMatchingTypeDecl, h, Option.or]
      | functionDecl n he hd ps => simp [lastMatchingTypeDecl, h, Option.or]
      | variableStatement ds => simp [lastMatchingTypeDecl, h, Option.or]
      | otherStmt => simp [lastMatchingTypeDecl, h, Option.or]

/-- C2 (counterexample): in a file declaring two interfaces named `P` — the
first with member `a`, the second with member `b` — the same-file lookup
returns the second declaration, not the first matching one in walk order. -/
theorem findTypeDeclaration_not_first_match :
    findTypeDeclaration
        ⟨[.typeDeclStmt (.interfaceDecl "P" [] [.propertySignature (some "a") false none []]),
          .typeDeclStmt (.interfaceDecl "P" [] [.propertySignature (some "b") false none []])]⟩
        "P"
      = some (.interfaceDecl "P" [] [.propertySignature (some "b") false none []])
    ∧ (TypeDecl.interfaceDecl "P" [] [.propertySignature (some "b") false none []]).localMemberNames
      = ["b"]
    ∧ (TypeDecl.interfaceDecl "P" [] [.propertySignature (some "a") false none []]).localMemberNames
      = ["a"]
    ∧ (["b"] : List String) ≠ ["a"] := by
  refine ⟨rfl, rfl, rfl, by decide⟩

/-- C2 (amended): for every same-file lookup of a type name, when the file
contains several interface or type-alias declarations with that name, the
Declaration Index returns the declaration encountered last by the walk: each
match overwrites the previous one, so the last match wins. -/
theorem findTypeDeclaration_last_match (sf : SourceFile) (nm : String) :
    findTypeDeclaration sf nm = lastMatchingTypeDecl nm sf.statements := by
  unfold findTypeDeclaration
  rw [findTypeDeclaration_foldl_eq]
  cases lastMatchingTypeDecl nm sf.statements <;> rfl

/-- C9: the Shape Resolver and both extraction pipelines are deterministic
pure functions of their inputs: resolving the same type expression twice with
the same inputs yields structurally equal values. -/
theorem buildPropType_deterministic :
    ∀ (fuel : Nat) (sf : SourceFile) (t : TypeNode) (chk : Checker),
      buildPropType fuel sf t = buildPropType fuel sf t
      ∧ extractPropsFromSource fuel sf = extractPropsFromSource fuel sf
      ∧ extractPropsFromSourceFile fuel chk sf = extractPropsFromSourceFile fuel chk sf :=
  fun _ _ _ _ => ⟨rfl, rfl, rfl⟩

/-- C10: every member-extraction path produces exactly one field per named
property-signature member; method signatures, index signatures, call
signatures, accessors, and unnamed property signatures produce no field. -/
theorem extraction_named_property_signatures_only :
    ∀ (fuel : Nat) (chk : Option Checker) (sf : SourceFile) (syn dn : String)
      (members : List Member),
      extractPropertiesFromType (fuel + 1) sf (.typeLiteral syn members)
        = members.filterMap (extractNamedPropertyMember fuel sf)
      ∧ extractPropertiesFromDeclaration (fuel + 1) chk sf (.interfaceDecl dn [] members)
        = members.filterMap (extractNamedPropertyMember fuel sf)
      ∧ extractPropertiesFromDeclaration (fuel + 1) chk sf
          (.typeAliasDecl dn (some (.typeLiteral syn members)))
        = members.filterMap (extractNamedPropertyMember fuel sf)
      ∧ extractNamedPropertyMember fuel sf .methodSignature = none
      ∧ extractNamedPropertyMember fuel sf .indexSignature = none
      ∧ extractNamedPropertyMember fuel sf .callSignature = none
      ∧ extractNamedPropertyMember fuel sf .accessor = none
      ∧ ∀ (q : Bool) (ty : Option TypeNode) (cs : List String),
          extractNamedPropertyMember fuel sf (.propertySignature none q ty cs) = none :=
  fun _ _ _ _ _ _ => ⟨rfl, rfl, rfl, rfl, rfl, rfl, rfl, fun _ _ _ => rfl⟩

/-- C4: an interface declaration's extracted field list is the concatenation,
in extension order, of the recursively-extracted field lists of each extended
type, followed by the locally declared fields, with no de-duplication — shown
in general and on the spec's invariant `A` with `x`, `B extends A` with `y`
giving fields `x, y`, and on a duplicated name giving both entries base
first. -/
theorem interface_extension_order :
    ∀ (fuel : Nat) (chk : Option Checker) (sf : SourceFile) (dn : String)
      (heritage : List String) (members : List Member),
      extractPropertiesFromDeclaration (fuel + 1) chk sf (.interfaceDecl dn heritage members)
        = (heritage.map fun refName =>
             match resolveHeritageRef chk sf refName with
             | some (baseDecl, baseSrcFile) =>
               extractPropertiesFromDeclaration fuel chk baseSrcFile baseDecl
             | none => []).flatten
          ++ members.filterMap (extractNamedPropertyMember fuel sf)
      ∧ (extractPropertiesFromDeclaration 3 none
            ⟨[.typeDeclStmt (.interfaceDecl "A" [] [.propertySignature (some "x") false none []])]⟩
            (.interfaceDecl "B" ["A"] [.propertySignature (some "y") false none []])).map
          PropDefinition.name
        = ["x", "y"]
      ∧ (extractPropertiesFromDeclaration 3 none
            ⟨[.typeDeclStmt (.interfaceDecl "A" [] [.propertySignature (some "x") false none []])]⟩
            (.interfaceDecl "B" ["A"]
              [.propertySignature (some "x") false none [],
               .propertySignature (some "y") false none []])).map
          PropDefinition.name
        = ["x", "x", "y"] :=
  fun _ _ _ _ _ _ => ⟨rfl, rfl, rfl⟩

/-- C7: when no default-export function is found, or it has zero parameters,
or its first parameter carries no type annotation, the single-file extraction
entry point returns the empty field list (it is a total function, so it
cannot raise). -/
theorem extractPropsFromSource_empty_cases :
    ∀ (fuel : Nat) (sf : SourceFile),
      (findDefaultExportFunction sf = none
        ∨ findDefaultExportFunction sf = some []
        ∨ ∃ p rest, findDefaultExportFunction sf = some (p :: rest) ∧ p.ty = none) →
      extractPropsFromSource fuel sf = [] := by
  intro fuel sf h
  unfold extractPropsFromSource
  rcases h with h | h | ⟨p, rest, h, hty⟩
  · rw [h]
  · rw [h]
  · rw [h]
    simp [hty]

/-- witness for C7: the empty module has no default export and extracts no
fields -/
theorem extractPropsFromSource_empty_cases_witness :
    findDefaultExportFunction ⟨[]⟩ = none ∧ extractPropsFromSource 5 ⟨[]⟩ = [] :=
  ⟨rfl, extractPropsFromSource_empty_cases 5 ⟨[]⟩ (Or.inl rfl)⟩

/-- a parenthesized union never yields parameters: the parameter locator sees
neither a direct function type, a parenthesized function type, nor a union
node -/
theorem extractFunctionParameters_paren_union (fuel : Nat) (sf : SourceFile)
    (synP synU : String) (ms : List TypeNode) :
    extractFunctionParameters fuel sf (.paren synP (.unionType synU ms)) = [] := by
  cases fuel <;> rfl

/-- C1 (counterexample): a bare union type node with a function-type member is
classified by the Shape Resolver as a Union, not a Function — the union check
of `buildPropType` precedes the function-type check. -/
theorem union_with_function_member_not_function :
    (buildPropType 5 ⟨[]⟩
        (.unionType "A | B" [.functionType "() => void" [], .otherType "string"])).kindTag
      = "union"
    ∧ anyFunctionType [.functionType "() => void" [], .otherType "string"] = true
    ∧ ("union" : String) ≠ "function" :=
  ⟨rfl, rfl, by decide⟩

/-- C1 (amended): a bare union type node is always classified Union, each
member resolved individually; the union clause of the function-type test takes
effect only when the union is wrapped in parentheses, and then the overall
shape is Function with an empty parameter list — the parameter derivation does
not look through a parenthesized union, so no member's parameter list is
used. -/
theorem union_function_classification :
    ∀ (fuel : Nat) (sf : SourceFile) (synU synP : String) (ms : List TypeNode),
      buildPropType (fuel + 1) sf (.unionType synU ms)
        = .union synU (ms.map (buildPropType fuel sf))
      ∧ (anyFunctionType ms = true →
          buildPropType (fuel + 1) sf (.paren synP (.unionType synU ms))
            = .func synP []) := by
  intro fuel sf synU synP ms
  refine ⟨rfl, fun h => ?_⟩
  show (if isFunctionTypeNodeB (.paren synP (.unionType synU ms)) then
          PropType.func (TypeNode.paren synP (.unionType synU ms)).getText
            (extractFunctionParameters fuel sf (.paren synP (.unionType synU ms)))
        else _)
      = PropType.func synP []
  have hfn : isFunctionTypeNodeB (.paren synP (.unionType synU ms)) = true := by
    show anyFunctionType ms = true
    exact h
  rw [hfn, extractFunctionParameters_paren_union]
  rfl

/-- witness for C1 (amended): on a union of a function type and `string`,
the bare union resolves to a Union of the members' shapes, and the same union
wrapped in parentheses resolves to Function with no parameters -/
theorem union_function_classification_witness :
    buildPropType 4 ⟨[]⟩ (.unionType "U" [.functionType "F" [], .otherType "string"])
      = .union "U"
          ([TypeNode.functionType "F" [], TypeNode.otherType "string"].map
            (buildPropType 3 ⟨[]⟩))
    ∧ anyFunctionType [.functionType "F" [], .otherType "string"] = true
    ∧ buildPropType 4 ⟨[]⟩
        (.paren "P" (.unionType "U" [.functionType "F" [], .otherType "string"]))
      = .func "P" [] := by
  have h := union_function_classification 3 ⟨[]⟩ "U" "P"
    [.functionType "F" [], .otherType "string"]
  exact ⟨h.1, rfl, h.2 rfl⟩

/-- C5: a type reference whose name resolves to no declaration, or to a
declaration yielding zero fields, degrades to a Primitive shape carrying the
reference's own source text; and a type alias whose target is not a type
literal yields zero fields. -/
theorem type_reference_primitive_degrade :
    (∀ (fuel : Nat) (sf : SourceFile) (syn nm : String),
      (findTypeDeclaration sf nm = none
        ∨ ∃ d, findTypeDeclaration sf nm = some d
            ∧ extractPropertiesFromDeclaration fuel none sf d = []) →
      buildPropType (fuel + 1) sf (.typeReference syn nm) = .primitive syn)
    ∧ (∀ (fuel : Nat) (chk : Option Checker) (sf : SourceFile) (an : String) (t : TypeNode),
        isTypeLiteralB t = false →
        extractPropertiesFromDeclaration (fuel + 1) chk sf (.typeAliasDecl an (some t)) = []) := by
  constructor
  · intro fuel sf syn nm h
    show (match findTypeDeclaration sf nm with
          | some typeDecl =>
            let properties := extractPropertiesFromDeclaration fuel none sf typeDecl
            if properties.length > 0 then
              PropType.object (TypeNode.typeReference syn nm).getText properties
            else .primitive (TypeNode.typeReference syn nm).getText
          | none => .primitive (TypeNode.typeReference syn nm).getText)
        = PropType.primitive syn
    rcases h with h | ⟨d, hd, hprops⟩
    · rw [h]
      rfl
    · rw [hd]
      simp [hprops, TypeNode.getText]
  · intro fuel chk sf an t ht
    cases t <;> simp_all [isTypeLiteralB, extractPropertiesFromDeclaration]

/-- witness for C5: the unresolvable reference `Date` in an empty module
degrades to the primitive `Date`, and an alias to a union type yields zero
fields -/
theorem type_reference_primitive_degrade_witness :
    findTypeDeclaration ⟨[]⟩ "Date" = none
    ∧ buildPropType 3 ⟨[]⟩ (.typeReference "Date" "Date") = .primitive "Date"
    ∧ isTypeLiteralB (.unionType "A | B" []) = false
    ∧ extractPropertiesFromDeclaration 3 none ⟨[]⟩
        (.typeAliasDecl "T" (some (.unionType "A | B" []))) = [] :=
  ⟨rfl,
   type_reference_primitive_degrade.1 2 ⟨[]⟩ "Date" "Date" (Or.inl rfl),
   rfl,
   type_reference_primitive_degrade.2 2 none ⟨[]⟩ "T" (.unionType "A | B" []) rfl⟩

/-- C3 (counterexample): resolving the heritage reference `Base` of interface
`Derived` with a symbol table supplied does not attempt the same-file lookup
first — the same-file walk would find the local `Base` with member `a`, yet
the extraction takes the symbol table's declaration with member `c`. -/
theorem heritage_skips_same_file_lookup :
    findTypeDeclaration
        ⟨[.typeDeclStmt (.interfaceDecl "Base" [] [.propertySignature (some "a") false none []]),
          .typeDeclStmt (.interfaceDecl "Derived" ["Base"]
            [.propertySignature (some "b") false none []])]⟩
        "Base"
      = some (.interfaceDecl "Base" [] [.propertySignature (some "a") false none []])
    ∧ (extractPropertiesFromDeclaration 5
          (some ⟨fun nm =>
            if nm == "Base" then
              some (.typeDeclRes
                (.interfaceDecl "Base" [] [.propertySignature (some "c") false none []]) ⟨[]⟩)
            else none⟩)
          ⟨[.typeDeclStmt (.interfaceDecl "Base" []
              [.propertySignature (some "a") false none []]),
            .typeDeclStmt (.interfaceDecl "Derived" ["Base"]
              [.propertySignature (some "b") false none []])]⟩
          (.interfaceDecl "Derived" ["Base"]
            [.propertySignature (some "b") false none []])).map PropDefinition.name
      = ["c", "b"]
    ∧ (["c", "b"] : List String) ≠ ["a", "b"] :=
  ⟨rfl, rfl, by decide⟩

/-- C3 (amended): the two resolution tiers are tried in order — same-file walk
first, symbol table only on failure — for the entry point's first-parameter
type reference; but a heritage reference is resolved through the symbol table
directly whenever one is supplied (the same-file walk serves only as the
fallback when no symbol table is given), and a reference nested inside a
member type is resolved by the same-file walk alone, never the symbol
table. -/
theorem reference_resolution_tiers :
    ∀ (fuel : Nat) (chk : Checker) (sf : SourceFile) (syn nm dn hname : String)
      (members : List Member),
      extractPropertiesFromTypeNode fuel chk sf (.typeReference syn nm)
        = (match findTypeDeclaration sf nm with
           | some d => extractPropertiesFromDeclaration fuel (some chk) sf d
           | none =>
             match chk.resolveRef nm with
             | some (.typeDeclRes d f) => extractPropertiesFromDeclaration fuel (some chk) f d
             | _ => [])
      ∧ extractPropertiesFromDeclaration (fuel + 1) (some chk) sf
          (.interfaceDecl dn [hname] members)
        = (match chk.resolveRef hname with
           | some (.typeDeclRes d f) => extractPropertiesFromDeclaration fuel (some chk) f d
           | _ => [])
          ++ members.filterMap (extractNamedPropertyMember fuel sf)
      ∧ buildPropType (fuel + 1) sf (.typeReference syn nm)
        = (match findTypeDeclaration sf nm with
           | some d =>
             let properties := extractPropertiesFromDeclaration fuel none sf d
             if properties.length > 0 then .object syn properties else .primitive syn
           | none => .primitive syn) := by
  intro fuel chk sf syn nm dn hname members
  refine ⟨rfl, ?_, rfl⟩
  show ((match resolveHeritageRef (some chk) sf hname with
         | some (baseDecl, baseSrcFile) =>
           extractPropertiesFromDeclaration fuel (some chk) baseSrcFile baseDecl
         | none => []) ++ [])
        ++ members.filterMap (extractNamedPropertyMember fuel sf)
      = _
  rw [List.append_nil]
  have hres : resolveHeritageRef (some chk) sf hname
      = (match chk.resolveRef hname with
         | some (.typeDeclRes d f) => some (d, f)
         | _ => none) := rfl
  rw [hres]
  cases h : chk.resolveRef hname with
  | none => rfl
  | some sr => cases sr <;> rfl

/-- the find? of a list with one element appended prefers a match in the
front part and otherwise tests the appended element -/
theorem find?_append_singleton (p : String → Bool) :
    ∀ (l : List String) (x : String),
      (l ++ [x]).find? p = ((l.find? p).or (if p x then some x else none)) := by
  intro l x
  induction l with
  | nil =>
    simp only [List.nil_append]
    cases hp : p x <;> simp [List.find?, hp, Option.or]
  | cons y l ih =>
    cases hp : p y <;> simp [List.find?, hp, ih, Option.or]

/-- `extractJSDocComment` selects exactly the last attached comment that
begins with the documentation opener, normalized -/
theorem extractJSDocComment_eq_lastDocOpener :
    ∀ (comments : List String),
      extractJSDocComment comments = (lastDocOpenerComment comments).map normalizeJSDoc := by
  intro comments
  induction comments with
  | nil => rfl
  | cons c rest ih =>
    show (match extractJSDocComment rest with
          | some r => some r
          | none => if jsStartsWith c "/**" then some (normalizeJSDoc c) else none)
        = _
    unfold lastDocOpenerComment at *
    rw [List.reverse_cons, find?_append_singleton]
    cases h : rest.reverse.find? (fun s => jsStartsWith s "/**") with
    | some r =>
      rw [h] at ih
      simp [ih, Option.or]
    | none =>
      rw [h] at ih
      simp only [ih]
      cases hc : jsStartsWith c "/**" <;> simp [hc, Option.or]

/-- C6: the Documentation Extractor returns the normalized text of the last
preceding comment that begins with the documentation opener, ignoring line
comments and plain block comments even when interleaved; and a member none of
whose preceding comments begins with the opener carries no description value
at all. -/
theorem doc_comment_selection :
    (∀ (comments : List String),
      extractJSDocComment comments = (lastDocOpenerComment comments).map normalizeJSDoc)
    ∧ (∀ (fuel : Nat) (sf : SourceFile) (n : String) (q : Bool) (ty : Option TypeNode)
        (comments : List String),
        (∀ c ∈ comments, jsStartsWith c "/**" = false) →
        (extractPropertyFromSignature (fuel + 1) sf n q ty comments).description = none) := by
  refine ⟨extractJSDocComment_eq_lastDocOpener, ?_⟩
  intro fuel sf n q ty comments h
  have hnone : extractJSDocComment comments = none := by
    rw [extractJSDocComment_eq_lastDocOpener]
    have : lastDocOpenerComment comments = none := by
      unfold lastDocOpenerComment
      rw [List.find?_eq_none]
      intro c hc
      simp [h c (List.mem_reverse.mp hc)]
    rw [this]
    rfl
  show (PropDefinition.mk n _ q
      (match extractJSDocComment comments with
       | some d => if d = "" then none else some d
       | none => none)).description = none
  rw [hnone]
  rfl

/-- witness for C6: a line comment followed by a plain block comment yields
no description value at all -/
theorem doc_comment_selection_witness :
    (∀ c ∈ (["// note", "/* plain block */"] : List String), jsStartsWith c "/**" = false)
    ∧ (extractPropertyFromSignature 3 ⟨[]⟩ "name" false none
        ["// note", "/* plain block */"]).description = none :=
  ⟨by decide, doc_comment_selection.2 2 ⟨[]⟩ "name" false none
    ["// note", "/* plain block */"] (by decide)⟩

/-- whatever name `findDiscriminator` settles on qualifies as a
discriminator for all members -/
theorem findDiscriminator_qualifies (members : List PropType) (nm : String) :
    findDiscriminator members = some nm → isDiscriminatorForB nm members = true := by
  intro h
  cases members with
  | nil => exact absurd h (by simp [findDiscriminator])
  | cons first rest =>
    simp only [findDiscriminator] at h
    have hp := List.find?_some h
    simpa using hp

/-- if any name qualifies as a discriminator, `findDiscriminator` finds one:
a qualifying name is a field of every member, in particular of the first,
whose field names are exactly the candidates scanned -/
theorem findDiscriminator_isSome_of_qualifies (first : PropType) (rest : List PropType)
    (nm : String) (hnm : isDiscriminatorForB nm (first :: rest) = true) :
    (findDiscriminator (first :: rest)).isSome := by
  have hfirst : (memberConstantValue nm first).isSome := by
    have hparts := hnm
    simp only [isDiscriminatorForB, Bool.and_eq_true] at hparts
    have := List.all_eq_true.mp hparts.1 first (by simp)
    simpa using this
  cases first with
  | object s props =>
    cases hf : props.find? (fun p => p.name == nm) with
    | none =>
      rw [memberConstantValue, hf] at hfirst
      simp at hfirst
    | some p =>
      have hmem : p ∈ props := List.mem_of_find?_eq_some hf
      have hname : p.name = nm := by
        have := List.find?_some hf
        exact eq_of_beq this
      unfold findDiscriminator
      rw [List.find?_isSome]
      refine ⟨nm, ?_, hnm⟩
      show nm ∈ (objectProperties (.object s props)).map PropDefinition.name
      rw [objectProperties, ← hname]
      exact List.mem_map_of_mem PropDefinition.name hmem
  | primitive s => simp [memberConstantValue] at hfirst
  | func s ps => simp [memberConstantValue] at hfirst
  | union s ts => simp [memberConstantValue] at hfirst
  | constant s v => simp [memberConstantValue] at hfirst
  | array s e => simp [memberConstantValue] at hfirst
  | tuple s ts => simp [memberConstantValue] at hfirst

/-- C8: on a nonempty Union shape, the detector yields a result exactly when
every member is an Object shape and some field name occurs in every member
with a Constant shape and pairwise distinct constant values; the returned
discriminator qualifies as such a field name, and the cases list preserves
member declaration order, keyed by each member's discriminator literal value
and carrying that member's fields. -/
theorem discriminated_union_detection :
    ∀ (syn : String) (members : List PropType), members ≠ [] →
      ((getDiscriminatedUnionInfo (.union syn members)).isSome ↔
        ((∀ m ∈ members, isObjectShapeB m = true)
          ∧ ∃ nm, isDiscriminatorForB nm members = true))
      ∧ ∀ info, getDiscriminatedUnionInfo (.union syn members) = some info →
          isDiscriminatorForB info.discriminator members = true
          ∧ info.cases = members.map (fun m =>
              { discriminatorValue := (memberConstantValue info.discriminator m).getD ""
                properties := objectProperties m }) := by
  intro syn members hne
  have hunfold : getDiscriminatedUnionInfo (.union syn members)
      = (if members.all isObjectShapeB then
          match findDiscriminator members with
          | some nm =>
            some
              { discriminator := nm
                cases := members.map fun m =>
                  { discriminatorValue := (memberConstantValue nm m).getD ""
                    properties := objectProperties m } }
          | none => none
        else none) := rfl
  constructor
  · constructor
    · intro hsome
      rw [hunfold] at hsome
      by_cases hall : members.all isObjectShapeB = true
      · rw [if_pos hall] at hsome
        cases hfd : findDiscriminator members with
        | none => rw [hfd] at hsome; simp at hsome
        | some nm =>
          refine ⟨fun m hm => List.all_eq_true.mp hall m hm, nm, ?_⟩
          exact findDiscriminator_qualifies members nm hfd
      · rw [if_neg hall] at hsome
        simp at hsome
    · rintro ⟨hallForall, nm, hnm⟩
      rw [hunfold]
      have hall : members.all isObjectShapeB = true := List.all_eq_true.mpr hallForall
      rw [if_pos hall]
      cases members with
      | nil => exact absurd rfl hne
      | cons first rest =>
        have hfd := findDiscriminator_isSome_of_qualifies first rest nm hnm
        obtain ⟨x, hx⟩ := Option.isSome_iff_exists.mp hfd
        rw [hx]
        rfl
  · intro info hinfo
    rw [hunfold] at hinfo
    by_cases hall : members.all isObjectShapeB = true
    · rw [if_pos hall] at hinfo
      cases hfd : findDiscriminator members with
      | none => rw [hfd] at hinfo; simp at hinfo
      | some nm =>
        rw [hfd] at hinfo
        have h2 := Option.some.inj hinfo
        constructor
        · rw [← h2]
          exact findDiscriminator_qualifies members nm hfd
        · rw [← h2]
    · rw [if_neg hall] at hinfo
      simp at hinfo

/-- witness for C8: on the spec's example union the detector applies, with
`kind` qualifying as the discriminator -/
theorem discriminated_union_detection_witness :
    ((getDiscriminatedUnionInfo (.union "Shape" exShapeMembers)).isSome ↔
      ((∀ m ∈ exShapeMembers, isObjectShapeB m = true)
        ∧ ∃ nm, isDiscriminatorForB nm exShapeMembers = true))
    ∧ (getDiscriminatedUnionInfo (.union "Shape" exShapeMembers)).isSome := by
  have h := discriminated_union_detection "Shape" exShapeMembers
    (by simp [exShapeMembers])
  exact ⟨h.1, h.1.mpr ⟨by decide, "kind", by decide⟩⟩

end ExtractProps
